import Mathlib

/-!
# Verification of `django_pgjson.fields`

A shallow embedding of `src/django_pgjson/fields.py` together with a model of
the Python standard-library JSON codec (`json.dumps` / `json.loads`) that the
module delegates serialization to.

Modelling conventions:

* Python values that can reach this module's functions are modelled by
  `PyValue` (`None`, `bool`, `int`, `float`, `str`, `list`, `dict`).
  Python `bool` is a subclass of `int`, which matters for
  `isinstance(value, six.integer_types)`; the model keeps `bool` a separate
  constructor and the `pyIsIntType` predicate accepts it, mirroring
  `isinstance`.
* A Python `float` is modelled by its shortest-repr decimal text (the text
  `repr` produces); binary floating point itself is not modelled.  The JSON
  codec model treats a float token as that text.
* `dict` keys are strings (the JSON-representable case); insertion order is
  kept as a list of pairs.
* The JSON codec is modelled after CPython's `json` module with the default
  options used by this code (`ensure_ascii=True`, separators `", "` / `": "`,
  no `sort_keys`, no `indent`): `dumpVal` is the printer, `parseValue` the
  scanner.  Lone surrogate `\uXXXX` escapes (which CPython maps to lone
  surrogate code units, unrepresentable in `Char`) make the model parser
  fail instead; they are unreachable from the printer.
-/

set_option maxRecDepth 4096

namespace PgJson

/-- Model of a Python value as it can reach the functions of `fields.py`. -/
inductive PyValue where
  | none
  | bool (b : Bool)
  | int (n : Int)
  | float (r : String)
  | str (s : String)
  | list (xs : List PyValue)
  | dict (kvs : List (String × PyValue))

/-- Decimal digit character, `0..9`. -/
def digitChar (d : Nat) : Char :=
  match d with
  | 0 => '0' | 1 => '1' | 2 => '2' | 3 => '3' | 4 => '4'
  | 5 => '5' | 6 => '6' | 7 => '7' | 8 => '8' | 9 => '9'
  | _ => '*'

/-- Decimal digits of a natural number, most significant first, with a fuel
bounding the number of digits; any fuel above `n` behaves identically. -/
def natToDigitsF : Nat → Nat → List Char
  | 0, _ => []
  | Nat.succ f, n =>
    if n < 10 then [digitChar n]
    else natToDigitsF f (n / 10) ++ [digitChar (n % 10)]

/-- Decimal digits of a natural number, most significant first
(the form `str(n)` renders for `n >= 0`). -/
def natToDigits (n : Nat) : List Char :=
  natToDigitsF (n + 1) n

/-- The characters of Python `str(n)` for an integer `n`. -/
def intDigits (n : Int) : List Char :=
  if n < 0 then '-' :: natToDigits (-n).toNat else natToDigits n.toNat

/-- Lowercase hexadecimal digit, `0..f` (as `'\u%04x' % n` renders). -/
def hexDigitChar (d : Nat) : Char :=
  match d with
  | 0 => '0' | 1 => '1' | 2 => '2' | 3 => '3' | 4 => '4'
  | 5 => '5' | 6 => '6' | 7 => '7' | 8 => '8' | 9 => '9'
  | 10 => 'a' | 11 => 'b' | 12 => 'c' | 13 => 'd' | 14 => 'e' | 15 => 'f'
  | _ => '*'

/-- The four hex digits of `'\u%04x' % n`. -/
def hex4 (n : Nat) : List Char :=
  [hexDigitChar (n / 4096 % 16), hexDigitChar (n / 256 % 16),
   hexDigitChar (n / 16 % 16), hexDigitChar (n % 16)]

/-- How `json.dumps` (with the default `ensure_ascii=True`) renders one
character inside a string literal: the `ESCAPE_DCT` shortcuts, `\uXXXX` for
other control and non-ASCII characters, and a surrogate pair for characters
beyond the basic multilingual plane. -/
def escChar (c : Char) : List Char :=
  if c = '"' then ['\\', '"']
  else if c = '\\' then ['\\', '\\']
  else if c = '\n' then ['\\', 'n']
  else if c = '\t' then ['\\', 't']
  else if c = '\r' then ['\\', 'r']
  else if c.toNat = 8 then ['\\', 'b']
  else if c.toNat = 12 then ['\\', 'f']
  else if c.toNat < 32 then '\\' :: 'u' :: hex4 c.toNat
  else if c.toNat < 127 then [c]
  else if c.toNat < 65536 then '\\' :: 'u' :: hex4 c.toNat
  else
    '\\' :: 'u' :: hex4 (55296 + (c.toNat - 65536) / 1024) ++
      ('\\' :: 'u' :: hex4 (56320 + (c.toNat - 65536) % 1024))

/-- `escChar` mapped over a character list. -/
def escList : List Char → List Char
  | [] => []
  | c :: cs => escChar c ++ escList cs

/-- A full JSON string literal for `s`, quotes included. -/
def escString (s : String) : List Char :=
  '"' :: escList s.data ++ ['"']

mutual
/-- The characters `json.dumps(v, cls=DjangoJSONEncoder)` produces with the
default separators `", "` and `": "` (the call sites in `fields.py` pass no
other options). -/
def dumpVal : PyValue → List Char
  | .none => "null".data
  | .bool true => "true".data
  | .bool false => "false".data
  | .int n => intDigits n
  | .float r => r.data
  | .str s => escString s
  | .list [] => ['[', ']']
  | .list (x :: xs) => '[' :: (dumpVal x ++ dumpTail xs) ++ [']']
  | .dict [] => ['{', '}']
  | .dict (kv :: kvs) =>
      '{' :: (escString kv.1 ++ ':' :: ' ' :: dumpVal kv.2 ++ dumpMTail kvs) ++ ['}']

/-- `", elem"` for each later array element. -/
def dumpTail : List PyValue → List Char
  | [] => []
  | x :: xs => ',' :: ' ' :: dumpVal x ++ dumpTail xs

/-- `", \"key\": value"` for each later object member. -/
def dumpMTail : List (String × PyValue) → List Char
  | [] => []
  | kv :: kvs => ',' :: ' ' :: escString kv.1 ++ ':' :: ' ' :: dumpVal kv.2 ++ dumpMTail kvs
end

/-- Model of `json.dumps(obj, cls=get_encoder_class())` on JSON-representable
values (the pluggable encoder only changes how non-JSON types such as dates
serialize, which `PyValue` does not contain). -/
def json_dumps (v : PyValue) : String :=
  ⟨dumpVal v⟩

/-- `JsonAdapter.dumps` (fields.py:36-38): delegates to `json.dumps` with the
configured encoder class and no further options. -/
def JsonAdapter.dumps (obj : PyValue) : String :=
  json_dumps obj

/-! ## The scanner (model of `json.loads`) -/

/-- The whitespace characters the JSON scanner skips (`' \t\n\r'`). -/
def isJsonWs (c : Char) : Bool :=
  c = ' ' || c = '\t' || c = '\n' || c = '\r'

/-- Drop leading JSON whitespace. -/
def skipWs : List Char → List Char
  | [] => []
  | c :: cs => if isJsonWs c then skipWs cs else c :: cs

/-- Value of one hexadecimal digit (`int(c, 16)`), upper or lower case. -/
def hexVal (c : Char) : Option Nat :=
  if '0' ≤ c ∧ c ≤ '9' then some (c.toNat - 48)
  else if 'a' ≤ c ∧ c ≤ 'f' then some (c.toNat - 87)
  else if 'A' ≤ c ∧ c ≤ 'F' then some (c.toNat - 55)
  else Option.none

/-- Combine four hex digit values into one code point
(`int(s[i:i+4], 16)`). -/
def hexComb (a b c d : Nat) : Nat :=
  ((a * 16 + b) * 16 + c) * 16 + d

/-- Prepend a character to the string part of a scanner result. -/
def consOut (c : Char) : Option (List Char × List Char) → Option (List Char × List Char)
  | Option.none => Option.none
  | some p => some (c :: p.1, p.2)

/-- Decode the low half of a surrogate pair after a high half `n`: expects
`\uXXXX` with `XXXX` in the low surrogate range and combines the halves
(CPython `py_scanstring`). -/
def scanU2 (n : Nat) : List Char → Option (Char × List Char)
  | s1 :: s2 :: a2 :: b2 :: c2 :: d2 :: r3 =>
    if s1 = '\\' ∧ s2 = 'u' then
      match hexVal a2, hexVal b2, hexVal c2, hexVal d2 with
      | some he, some hf, some hg, some hh =>
        let m := hexComb he hf hg hh
        if 56320 ≤ m ∧ m < 57344 then
          some (Char.ofNat (65536 + (n - 55296) * 1024 + (m - 56320)), r3)
        else Option.none
      | _, _, _, _ => Option.none
    else Option.none
  | _ => Option.none

/-- Decode the four hex digits of a `\uXXXX` escape; a high surrogate must
be followed by a low surrogate (CPython would keep a lone surrogate as a
lone code unit, which `Char` cannot represent, so the model rejects it; the
printer never emits one). -/
def scanU : List Char → Option (Char × List Char)
  | a :: b :: c :: d :: r2 =>
    match hexVal a, hexVal b, hexVal c, hexVal d with
    | some ha, some hb, some hc, some hd =>
      let n := hexComb ha hb hc hd
      if n < 55296 ∨ 57344 ≤ n then some (Char.ofNat n, r2)
      else if n < 56320 then scanU2 n r2
      else Option.none
    | _, _, _, _ => Option.none
  | _ => Option.none

/-- Decode one backslash escape (input starts after the backslash): the
shortcut escapes and `\uXXXX` via `scanU`.  Returns the decoded character
and the remaining input. -/
def scanEsc : List Char → Option (Char × List Char)
  | [] => Option.none
  | e :: r =>
    if e = '"' then some ('"', r)
    else if e = '\\' then some ('\\', r)
    else if e = '/' then some ('/', r)
    else if e = 'b' then some (Char.ofNat 8, r)
    else if e = 'f' then some (Char.ofNat 12, r)
    else if e = 'n' then some ('\n', r)
    else if e = 'r' then some ('\r', r)
    else if e = 't' then some ('\t', r)
    else if e = 'u' then scanU r
    else Option.none

/-- Scan the body of a JSON string literal after the opening quote
(CPython `py_scanstring`, strict mode): literal characters must be `>= 0x20`,
escapes go through `scanEsc`.  Returns the decoded characters and the input
after the closing quote.  The fuel is decremented once per decoded
character, so any fuel above the input length behaves identically. -/
def parseStrBody : Nat → List Char → Option (List Char × List Char)
  | 0, _ => Option.none
  | Nat.succ f, cs =>
    match cs with
    | [] => Option.none
    | c :: rest =>
      if c = '"' then some ([], rest)
      else if c = '\\' then
        match scanEsc rest with
        | some (d, r) => consOut d (parseStrBody f r)
        | Option.none => Option.none
      else if c.toNat < 32 then Option.none
      else consOut c (parseStrBody f rest)

/-- Longest digit run at the front of the input. -/
def takeDigits : List Char → List Char × List Char
  | [] => ([], [])
  | c :: cs =>
    if c.isDigit then
      let p := takeDigits cs
      (c :: p.1, p.2)
    else ([], c :: cs)

/-- Numeric value of a digit character. -/
def digitVal (c : Char) : Nat :=
  c.toNat - 48

/-- Value of a digit run, most significant first. -/
def foldDigits (ds : List Char) : Nat :=
  ds.foldl (fun a c => a * 10 + digitVal c) 0

/-- The integer part of a JSON number: `0` alone, or a nonzero digit followed
by more digits (the `(0|[1-9]\d*)` group of the scanner's number regex). -/
def parseIntPart : List Char → Option (List Char × List Char)
  | [] => Option.none
  | c :: rest =>
    if c = '0' then some (['0'], rest)
    else if c.isDigit then
      let p := takeDigits rest
      some (c :: p.1, p.2)
    else Option.none

/-- The optional fraction group `(\.\d+)?`; returns `[]` and the unchanged
input when absent. -/
def parseFracPart (cs : List Char) : List Char × List Char :=
  match cs with
  | c1 :: c :: rest =>
    if c1 = '.' ∧ c.isDigit then
      let p := takeDigits rest
      ('.' :: c :: p.1, p.2)
    else ([], cs)
  | _ => ([], cs)

/-- The optional exponent group `([eE][-+]?\d+)?`; returns `[]` and the
unchanged input when absent. -/
def parseExpPart (cs : List Char) : List Char × List Char :=
  match cs with
  | [] => ([], cs)
  | e :: rest =>
    if e = 'e' ∨ e = 'E' then
      match rest with
      | [] => ([], cs)
      | s :: rest2 =>
        if s = '+' ∨ s = '-' then
          match rest2 with
          | [] => ([], cs)
          | c :: rest3 =>
            if c.isDigit then
              let p := takeDigits rest3
              (e :: s :: c :: p.1, p.2)
            else ([], cs)
        else if s.isDigit then
          let p := takeDigits rest2
          (e :: s :: p.1, p.2)
        else ([], cs)
    else ([], cs)

/-- An unsigned JSON number: an `int` when only the integer part is present,
a `float` (modelled by its source text) when a fraction or exponent follows,
as CPython's `scan_once` does. -/
def parseUNum (cs : List Char) : Option (PyValue × List Char) :=
  match parseIntPart cs with
  | Option.none => Option.none
  | some (ip, r1) =>
    let fr := parseFracPart r1
    let ex := parseExpPart fr.2
    if fr.1 = [] ∧ ex.1 = [] then some (.int (foldDigits ip), r1)
    else some (.float ⟨ip ++ fr.1 ++ ex.1⟩, ex.2)

/-- Negate a scanned number. -/
def pyNeg : PyValue → PyValue
  | .int m => .int (-m)
  | .float r => .float ⟨'-' :: r.data⟩
  | v => v

/-- Match an expected literal character sequence. -/
def expectChars : List Char → List Char → Option (List Char)
  | [], cs => some cs
  | e :: es, c :: cs => if c = e then expectChars es cs else Option.none
  | _ :: _, [] => Option.none

/-- A signed JSON number, plus the `-Infinity` constant. -/
def parseNum : List Char → Option (PyValue × List Char)
  | [] => Option.none
  | c :: rest =>
    if c = '-' then
      if rest.head? = some 'I' then
        match rest with
        | _ :: r2 =>
          (expectChars ['n', 'f', 'i', 'n', 'i', 't', 'y'] r2).map
            (fun r => (.float "-inf", r))
        | [] => Option.none
      else (parseUNum rest).map (fun p => (pyNeg p.1, p.2))
    else parseUNum (c :: rest)

mutual
/-- Scan one JSON value (CPython `scan_once`): leading whitespace is NOT
skipped here, matching the C/Python scanner.  `fuel` bounds the nesting
recursion; `json_loads` supplies enough for any input. -/
def parseValue : Nat → List Char → Option (PyValue × List Char)
  | 0, _ => Option.none
  | Nat.succ fuel, cs =>
    match cs with
    | [] => Option.none
    | c :: rest =>
      if c = '"' then
        (parseStrBody (rest.length + 1) rest).map (fun p => (.str ⟨p.1⟩, p.2))
      else if c = '[' then
        let cs2 := skipWs rest
        if cs2.head? = some ']' then some (.list [], cs2.tail)
        else (parseElems fuel cs2).map (fun p => (.list p.1, p.2))
      else if c = '{' then
        let cs2 := skipWs rest
        if cs2.head? = some '}' then some (.dict [], cs2.tail)
        else (parseMembers fuel cs2).map (fun p => (.dict p.1, p.2))
      else if c = 'n' then
        (expectChars ['u', 'l', 'l'] rest).map (fun r => (.none, r))
      else if c = 't' then
        (expectChars ['r', 'u', 'e'] rest).map (fun r => (.bool true, r))
      else if c = 'f' then
        (expectChars ['a', 'l', 's', 'e'] rest).map (fun r => (.bool false, r))
      else if c = 'N' then
        (expectChars ['a', 'N'] rest).map (fun r => (.float "nan", r))
      else if c = 'I' then
        (expectChars ['n', 'f', 'i', 'n', 'i', 't', 'y'] rest).map
          (fun r => (.float "inf", r))
      else parseNum (c :: rest)

/-- Scan the elements of a nonempty array, consuming the closing `]`
(the loop of CPython `JSONArray`; whitespace allowed around separators). -/
def parseElems : Nat → List Char → Option (List PyValue × List Char)
  | 0, _ => Option.none
  | Nat.succ fuel, cs =>
    (parseValue fuel cs).bind fun vp =>
      let s := skipWs vp.2
      if s.head? = some ',' then
        (parseElems fuel (skipWs s.tail)).map (fun q => (vp.1 :: q.1, q.2))
      else if s.head? = some ']' then some ([vp.1], s.tail)
      else Option.none

/-- Scan the members of a nonempty object, consuming the closing `}`
(the loop of CPython `JSONObject`; keys must be string literals). -/
def parseMembers : Nat → List Char → Option (List (String × PyValue) × List Char)
  | 0, _ => Option.none
  | Nat.succ fuel, cs =>
    match cs with
    | [] => Option.none
    | c :: rest =>
      if c = '"' then
        (parseStrBody (rest.length + 1) rest).bind fun kp =>
          let s1 := skipWs kp.2
          if s1.head? = some ':' then
            (parseValue fuel (skipWs s1.tail)).bind fun vp =>
              let s2 := skipWs vp.2
              if s2.head? = some ',' then
                (parseMembers fuel (skipWs s2.tail)).map
                  (fun q => ((⟨kp.1⟩, vp.1) :: q.1, q.2))
              else if s2.head? = some '}' then some ([(⟨kp.1⟩, vp.1)], s2.tail)
              else Option.none
          else Option.none
      else Option.none
end

/-- Model of `json.loads(s)`: skip leading whitespace, scan one value, and
require only whitespace to remain (`JSONDecoder.decode`); `Option.none`
models a `ValueError`.  The fuel `2 * length + 2` exceeds what any input can
consume, since every nesting step consumes at least one character. -/
def json_loads (s : String) : Option PyValue :=
  match parseValue (2 * s.data.length + 2) (skipWs s.data) with
  | some (v, rest) => if skipWs rest = [] then some v else Option.none
  | Option.none => Option.none

/-! ## The field operations of `fields.py` -/

/-- `JsonField.to_python` (fields.py:72-78): a string is parsed as JSON;
on a `ValueError` the string is passed through unchanged; non-strings are
returned unchanged. -/
def JsonField.to_python (value : PyValue) : PyValue :=
  match value with
  | .str s =>
    match json_loads s with
    | some w => w
    | Option.none => .str s
  | v => v

/-- `JsonField.db_type` (fields.py:56-59).  `get_version` encodes server
version 9.2 as the integer 90200; a `RuntimeError` is modelled as `.error`
with the source's message. -/
def JsonField.db_type (version : Nat) : Except String String :=
  if version < 90200 then
    .error "django_pgjson does not supports postgresql version < 9.2"
  else .ok "json"

/-- `JsonBField.db_type` (fields.py:112-115).  Version 9.4 is encoded as
90400. -/
def JsonBField.db_type (version : Nat) : Except String String :=
  if version < 90400 then
    .error "django_pgjson: PostgreSQL >= 9.4 is required for jsonb support."
  else .ok "jsonb"

/-- `isinstance(value, six.string_types)`. -/
def pyIsStr : PyValue → Bool
  | .str _ => true
  | _ => false

/-- `isinstance(value, six.integer_types)`: Python's `bool` is a subclass of
`int`, so booleans satisfy this check. -/
def pyIsIntType : PyValue → Bool
  | .int _ => true
  | .bool _ => true
  | _ => false

mutual
/-- Python `repr` on the modelled values (string escaping inside `repr` of
containers is simplified to plain single quotes; no claim depends on it). -/
def pyRepr : PyValue → String
  | .none => "None"
  | .bool b => if b then "True" else "False"
  | .int n => ⟨intDigits n⟩
  | .float r => r
  | .str s => "\x27" ++ s ++ "\x27"
  | .list xs => "[" ++ reprJoin xs ++ "]"
  | .dict kvs => "\x7b" ++ reprJoinKV kvs ++ "\x7d"

/-- Comma-joined `repr`s of list elements. -/
def reprJoin : List PyValue → String
  | [] => ""
  | [x] => pyRepr x
  | x :: xs => pyRepr x ++ ", " ++ reprJoin xs

/-- Comma-joined `repr`s of dict items. -/
def reprJoinKV : List (String × PyValue) → String
  | [] => ""
  | [kv] => "\x27" ++ kv.1 ++ "\x27: " ++ pyRepr kv.2
  | kv :: kvs => "\x27" ++ kv.1 ++ "\x27: " ++ pyRepr kv.2 ++ ", " ++ reprJoinKV kvs
end

/-- Python `str(v)` (what `"%s" % v` produces): strings render verbatim,
everything else as its `repr`. -/
def pyToStr : PyValue → String
  | .str s => s
  | v => pyRepr v

/-- Python iteration (`for v in value`): lists yield their elements, dicts
their keys, strings their characters; other values raise `TypeError`. -/
def pyIterate : PyValue → Option (List PyValue)
  | .list xs => some xs
  | .dict kvs => some (kvs.map (fun kv => PyValue.str kv.1))
  | .str s => some (s.data.map (fun c => PyValue.str ⟨[c]⟩))
  | _ => Option.none

/-- `JsonBField.get_prep_lookup` (fields.py:117-140).  `.error` models a
raised `TypeError`; the `jcontains` re-encoding uses the default options of
a field constructed without `options` (the case the spec describes). -/
def JsonBField.get_prep_lookup (lookup_type : String) (value : PyValue) :
    Except String PyValue :=
  let value := if lookup_type = "jcontains" ∧ ¬ pyIsStr value = true
    then PyValue.str (json_dumps value) else value
  if lookup_type = "jhas_any" ∨ lookup_type = "jhas_all" then
    let value := if pyIsStr value then PyValue.list [value] else value
    match pyIterate value with
    | some items => .ok (.list (items.map (fun v => PyValue.str (pyToStr v))))
    | Option.none => .error "TypeError: object is not iterable"
  else if lookup_type = "jhas" ∧ ¬ pyIsStr value = true then
    if pyIsIntType value then .ok (.str (pyToStr value))
    else .error "jhas lookup requires str or int"
  else .ok value

/-- One character of `\w` in the `re` module's default (ASCII) mode. -/
def isWordChar (c : Char) : Bool :=
  c.isAlphanum || c = '_'

/-- `JsonField.get_transform` (fields.py:97-108), the part after the base
field's transform registry found nothing (the claims are scoped to that
case): `re.match("at_\\w+", name)` anchors at the start only, and
`name.split("_", 1)[1]` is everything past the first underscore — which the
matched prefix `at_` places at index 2.  Returns the key the produced
`KeyTransformFactory` is scoped to, or `Option.none`. -/
def JsonField.get_transform (name : String) : Option String :=
  match name.data with
  | c1 :: c2 :: c3 :: c4 :: rest =>
    if c1 = 'a' ∧ c2 = 't' ∧ c3 = '_' ∧ isWordChar c4 then some ⟨c4 :: rest⟩
    else Option.none
  | _ => Option.none

/-- `JsonFormField.prepare_value` (fields.py:158-164): strings render
verbatim, anything else as its JSON text via the pluggable encoder. -/
def JsonFormField.prepare_value (value : PyValue) : String :=
  match value with
  | .str s => s
  | v => json_dumps v

mutual
/-- No float occurs in the value.  Floats carry binary precision the model
does not capture (the spec brackets numeric precision as the codec's own
concern), so the round-trip statement is restricted to float-free values. -/
def noFloat : PyValue → Bool
  | .float _ => false
  | .list xs => noFloatList xs
  | .dict kvs => noFloatDict kvs
  | _ => true

/-- `noFloat` over the elements of a list. -/
def noFloatList : List PyValue → Bool
  | [] => true
  | x :: xs => noFloat x && noFloatList xs

/-- `noFloat` over the values of a dict. -/
def noFloatDict : List (String × PyValue) → Bool
  | [] => true
  | kv :: kvs => noFloat kv.2 && noFloatDict kvs
end

/-- The continuation after a number token may not begin with a character the
number scanner would absorb (a digit, `.`, `e`, `E`).  The separators and
closers of the JSON grammar all satisfy this. -/
def numSafe : List Char → Bool
  | [] => true
  | c :: _ => !(c.isDigit || c = '.' || c = 'e' || c = 'E')

/-! ## Decimal digit lemmas -/

theorem digitChar_spec : ∀ d, d < 10 →
    (digitChar d).isDigit = true ∧ digitVal (digitChar d) = d ∧
    (1 ≤ d → digitChar d ≠ '0') := by
  decide

theorem natToDigitsF_congr : ∀ f g n, n < f → n < g →
    natToDigitsF f n = natToDigitsF g n := by
  intro f
  induction f with
  | zero => intro g n h _; omega
  | succ f ih =>
    intro g n hf hg
    cases g with
    | zero => omega
    | succ g =>
      by_cases h10 : n < 10
      · simp [natToDigitsF, h10]
      · have hd : n / 10 < n := Nat.div_lt_self (by omega) (by omega)
        simp only [natToDigitsF, if_neg h10]
        rw [ih g (n / 10) (by omega) (by omega)]

theorem natToDigits_lt {n : Nat} (h : n < 10) : natToDigits n = [digitChar n] := by
  simp [natToDigits, natToDigitsF, h]

theorem natToDigits_ge {n : Nat} (h : 10 ≤ n) :
    natToDigits n = natToDigits (n / 10) ++ [digitChar (n % 10)] := by
  have hd : n / 10 < n := Nat.div_lt_self (by omega) (by omega)
  show natToDigitsF (n + 1) n = _
  rw [show n + 1 = Nat.succ n from rfl]
  simp only [natToDigitsF, if_neg (by omega : ¬ n < 10)]
  rw [natToDigitsF_congr n (n / 10 + 1) (n / 10) (by omega) (by omega)]
  rfl

theorem foldDigits_append_one (l : List Char) (c : Char) :
    foldDigits (l ++ [c]) = 10 * foldDigits l + digitVal c := by
  simp [foldDigits, List.foldl_append]
  omega

theorem natToDigits_facts : ∀ n : Nat,
    (∀ c ∈ natToDigits n, c.isDigit = true) ∧
    foldDigits (natToDigits n) = n ∧
    ∃ c t, natToDigits n = c :: t ∧ c.isDigit = true ∧ (1 ≤ n → c ≠ '0') := by
  intro n
  induction n using Nat.strong_induction_on with
  | _ n ih =>
    by_cases h10 : n < 10
    · rw [natToDigits_lt h10]
      obtain ⟨h1, h2, h3⟩ := digitChar_spec n h10
      refine ⟨by simpa using h1, by simpa [foldDigits, digitVal] using h2, ?_⟩
      exact ⟨digitChar n, [], rfl, h1, h3⟩
    · have hd : n / 10 < n := Nat.div_lt_self (by omega) (by omega)
      obtain ⟨ihall, ihfold, c, t, ihcons, ihdig, ihz⟩ := ih (n / 10) hd
      rw [natToDigits_ge (by omega)]
      obtain ⟨hm1, hm2, _⟩ := digitChar_spec (n % 10) (by omega)
      refine ⟨?_, ?_, ?_⟩
      · intro x hx
        rcases List.mem_append.1 hx with hx | hx
        · exact ihall x hx
        · simp at hx; subst hx; exact hm1
      · rw [foldDigits_append_one, ihfold, hm2]; omega
      · exact ⟨c, t ++ [digitChar (n % 10)], by rw [ihcons]; rfl, ihdig,
          fun _ => ihz (by omega)⟩

/-! ## Number token lemmas -/

theorem numSafe_head {c : Char} {t : List Char} (h : numSafe (c :: t) = true) :
    c.isDigit = false ∧ c ≠ '.' ∧ c ≠ 'e' ∧ c ≠ 'E' := by
  simp [numSafe] at h
  exact ⟨h.1.1.1, h.1.1.2, h.1.2, h.2⟩

theorem isDigit_ne {c : Char} (h : c.isDigit = true) :
    c ≠ '-' ∧ c ≠ 'I' ∧ c ≠ '"' ∧ c ≠ '[' ∧ c ≠ '{' ∧ c ≠ 'n' ∧ c ≠ 't' ∧
    c ≠ 'f' ∧ c ≠ 'N' ∧ isJsonWs c = false ∧ c ≠ ']' ∧ c ≠ '}' ∧ c ≠ '\\' := by
  have hws : isJsonWs c = false := by
    by_cases h1 : c = ' '
    · subst h1; exact absurd h (by decide)
    by_cases h2 : c = '\t'
    · subst h2; exact absurd h (by decide)
    by_cases h3 : c = '\n'
    · subst h3; exact absurd h (by decide)
    by_cases h4 : c = '\r'
    · subst h4; exact absurd h (by decide)
    simp [isJsonWs, h1, h2, h3, h4]
  refine ⟨?_, ?_, ?_, ?_, ?_, ?_, ?_, ?_, ?_, hws, ?_, ?_, ?_⟩ <;>
    (intro heq; subst heq; exact absurd h (by decide))

theorem takeDigits_split : ∀ ds rest, (∀ c ∈ ds, c.isDigit = true) →
    numSafe rest = true → takeDigits (ds ++ rest) = (ds, rest) := by
  intro ds
  induction ds with
  | nil =>
    intro rest _ h
    cases rest with
    | nil => rfl
    | cons c t => simp [takeDigits, (numSafe_head h).1]
  | cons d ds ih =>
    intro rest hall h
    have hd : d.isDigit = true := hall d (by simp)
    have hds : ∀ c ∈ ds, c.isDigit = true := fun c hc => hall c (by simp [hc])
    simp [takeDigits, hd, ih rest hds h]

theorem parseIntPart_natToDigits (n : Nat) (rest : List Char)
    (h : numSafe rest = true) :
    parseIntPart (natToDigits n ++ rest) = some (natToDigits n, rest) := by
  obtain ⟨hall, hfold, c, t, hcons, hdig, hz⟩ := natToDigits_facts n
  by_cases h0 : n = 0
  · subst h0
    rw [natToDigits_lt (by omega)]
    have hz0 : digitChar 0 = '0' := rfl
    rw [hz0]
    cases rest with
    | nil => rfl
    | cons r rs => simp [parseIntPart]
  · have hc0 : c ≠ '0' := hz (by omega)
    have ht : ∀ x ∈ t, x.isDigit = true := by
      intro x hx
      exact hall x (by rw [hcons]; simp [hx])
    rw [hcons]
    simp only [List.cons_append, parseIntPart, if_neg hc0, hdig, if_pos trivial,
      if_true]
    rw [takeDigits_split t rest ht h]

theorem parseFracPart_numSafe {cs : List Char} (h : numSafe cs = true) :
    parseFracPart cs = ([], cs) := by
  match cs with
  | [] => rfl
  | [c] => rfl
  | c1 :: c :: rest =>
    have := (numSafe_head h).2.1
    simp [parseFracPart, this]

theorem parseExpPart_numSafe {cs : List Char} (h : numSafe cs = true) :
    parseExpPart cs = ([], cs) := by
  match cs with
  | [] => rfl
  | e :: rest =>
    obtain ⟨_, _, he, hE⟩ := numSafe_head h
    simp [parseExpPart, he, hE]

theorem parseUNum_natToDigits (n : Nat) (rest : List Char)
    (h : numSafe rest = true) :
    parseUNum (natToDigits n ++ rest) = some (.int n, rest) := by
  obtain ⟨_, hfold, _⟩ := natToDigits_facts n
  simp only [parseUNum, parseIntPart_natToDigits n rest h,
    parseFracPart_numSafe h, parseExpPart_numSafe h, hfold]
  simp

theorem parseNum_intDigits (n : Int) (rest : List Char)
    (h : numSafe rest = true) :
    parseNum (intDigits n ++ rest) = some (.int n, rest) := by
  by_cases hneg : n < 0
  · obtain ⟨hall, hfold, c, t, hcons, hdig, hz⟩ := natToDigits_facts (-n).toNat
    have hcI : c ≠ 'I' := (isDigit_ne hdig).2.1
    simp only [intDigits, if_pos hneg, List.cons_append]
    rw [hcons]
    simp only [parseNum, List.cons_append, List.head?_cons]
    simp only [if_true]
    rw [if_neg (by simpa using hcI)]
    rw [show c :: (t ++ rest) = (c :: t) ++ rest from rfl, ← hcons,
      parseUNum_natToDigits (-n).toNat rest h]
    have hto : (((-n).toNat : Int)) = -n := Int.toNat_of_nonneg (by omega)
    simp [pyNeg, hto]
  · obtain ⟨hall, hfold, c, t, hcons, hdig, hz⟩ := natToDigits_facts n.toNat
    have hcm : c ≠ '-' := (isDigit_ne hdig).1
    simp only [intDigits, if_neg hneg]
    rw [hcons]
    simp only [List.cons_append, parseNum]
    rw [if_neg hcm]
    rw [show c :: (t ++ rest) = (c :: t) ++ rest from rfl, ← hcons,
      parseUNum_natToDigits n.toNat rest h]
    have hto : ((n.toNat : Int)) = n := Int.toNat_of_nonneg (by omega)
    rw [hto]

/-! ## String literal lemmas -/

theorem hexVal_hexDigitChar : ∀ k, k < 16 → hexVal (hexDigitChar k) = some k := by
  decide

theorem char_valid_range (c : Char) :
    c.toNat < 55296 ∨ (57344 ≤ c.toNat ∧ c.toNat < 1114112) := by
  have h : c.toNat < 55296 ∨ (57343 < c.toNat ∧ c.toNat < 1114112) := c.valid
  rcases h with h | h
  · exact Or.inl h
  · exact Or.inr ⟨by omega, h.2⟩

theorem hexComb_digits (n : Nat) (hn : n < 65536) :
    hexComb (n / 4096 % 16) (n / 256 % 16) (n / 16 % 16) (n % 16) = n := by
  simp only [hexComb]
  omega

theorem scanU_digits (a b c d : Char) (va vb vc vd : Nat) (r : List Char)
    (ha : hexVal a = some va) (hb : hexVal b = some vb)
    (hc : hexVal c = some vc) (hd : hexVal d = some vd) :
    scanU (a :: b :: c :: d :: r) =
      (if hexComb va vb vc vd < 55296 ∨ 57344 ≤ hexComb va vb vc vd then
        some (Char.ofNat (hexComb va vb vc vd), r)
      else if hexComb va vb vc vd < 56320 then scanU2 (hexComb va vb vc vd) r
      else Option.none) := by
  simp only [scanU, ha, hb, hc, hd]

theorem scanU_nonsurr (n : Nat) (hn : n < 65536) (hv : n < 55296 ∨ 57344 ≤ n)
    (tail : List Char) :
    scanU (hex4 n ++ tail) = some (Char.ofNat n, tail) := by
  have e1 := hexVal_hexDigitChar (n / 4096 % 16) (by omega)
  have e2 := hexVal_hexDigitChar (n / 256 % 16) (by omega)
  have e3 := hexVal_hexDigitChar (n / 16 % 16) (by omega)
  have e4 := hexVal_hexDigitChar (n % 16) (by omega)
  rw [hex4]
  simp only [List.cons_append, List.nil_append]
  rw [scanU_digits _ _ _ _ _ _ _ _ tail e1 e2 e3 e4, hexComb_digits n hn,
    if_pos hv]

theorem scanU2_low (n : Nat) (lo : Nat) (hlo1 : 56320 ≤ lo) (hlo2 : lo < 57344)
    (tail : List Char) :
    scanU2 n ('\\' :: 'u' :: (hex4 lo ++ tail)) =
      some (Char.ofNat (65536 + (n - 55296) * 1024 + (lo - 56320)), tail) := by
  have f1 := hexVal_hexDigitChar (lo / 4096 % 16) (by omega)
  have f2 := hexVal_hexDigitChar (lo / 256 % 16) (by omega)
  have f3 := hexVal_hexDigitChar (lo / 16 % 16) (by omega)
  have f4 := hexVal_hexDigitChar (lo % 16) (by omega)
  simp only [hex4, List.cons_append, List.nil_append, scanU2, f1, f2, f3, f4]
  simp only [hexComb_digits lo (by omega)]
  simp [hlo1, hlo2]

theorem scanU_pair (c : Char) (hc : 65536 ≤ c.toNat) (tail : List Char) :
    scanU (hex4 (55296 + (c.toNat - 65536) / 1024) ++
      ('\\' :: 'u' :: (hex4 (56320 + (c.toNat - 65536) % 1024) ++ tail)))
    = some (c, tail) := by
  have hlt : c.toNat < 1114112 := by
    rcases char_valid_range c with h | h
    · omega
    · exact h.2
  set hi := 55296 + (c.toNat - 65536) / 1024 with hhi
  set lo := 56320 + (c.toNat - 65536) % 1024 with hlo
  have hdiv : (c.toNat - 65536) / 1024 < 1024 := by omega
  have hmod : (c.toNat - 65536) % 1024 < 1024 := by omega
  have hhirange : 55296 ≤ hi ∧ hi < 56320 := by omega
  have hlorange : 56320 ≤ lo ∧ lo < 57344 := by omega
  have e1 := hexVal_hexDigitChar (hi / 4096 % 16) (by omega)
  have e2 := hexVal_hexDigitChar (hi / 256 % 16) (by omega)
  have e3 := hexVal_hexDigitChar (hi / 16 % 16) (by omega)
  have e4 := hexVal_hexDigitChar (hi % 16) (by omega)
  have hrec : 65536 + (hi - 55296) * 1024 + (lo - 56320) = c.toNat := by
    rw [hhi, hlo]
    omega
  have hu2 := scanU2_low hi lo hlorange.1 hlorange.2 tail
  conv_lhs => rw [hex4]
  simp only [List.cons_append, List.nil_append]
  rw [scanU_digits _ _ _ _ _ _ _ _ _ e1 e2 e3 e4, hexComb_digits hi (by omega)]
  have hno : ¬ (hi < 55296 ∨ 57344 ≤ hi) := by omega
  rw [if_neg hno, if_pos (by omega : hi < 56320), hu2, hrec, Char.ofNat_toNat]

theorem scanEsc_u (r : List Char) : scanEsc ('u' :: r) = scanU r := by
  simp [scanEsc]

theorem parseStrBody_backslash (f : Nat) (r : List Char) :
    parseStrBody (f + 1) ('\\' :: r) =
      (match scanEsc r with
       | some p => consOut p.1 (parseStrBody f p.2)
       | Option.none => Option.none) := by
  simp only [parseStrBody, if_neg (by decide : ¬ ('\\' : Char) = '"'),
    if_pos (rfl : ('\\' : Char) = '\\')]
  rcases scanEsc r with _ | ⟨d, r2⟩ <;> rfl

theorem parseStrBody_escChar (c : Char) (f : Nat) (tail : List Char) :
    parseStrBody (f + 1) (escChar c ++ tail) = consOut c (parseStrBody f tail) := by
  by_cases h1 : c = '"'
  · subst h1; simp [escChar, parseStrBody_backslash, scanEsc]
  by_cases h2 : c = '\\'
  · subst h2; simp [escChar, parseStrBody_backslash, scanEsc]
  by_cases h3 : c = '\n'
  · subst h3; simp [escChar, parseStrBody_backslash, scanEsc]
  by_cases h4 : c = '\t'
  · subst h4; simp [escChar, parseStrBody_backslash, scanEsc]
  by_cases h5 : c = '\r'
  · subst h5; simp [escChar, parseStrBody_backslash, scanEsc]
  by_cases h6 : c.toNat = 8
  · have hc : Char.ofNat 8 = c := by rw [← h6]; exact Char.ofNat_toNat c
    simp only [escChar, if_neg h1, if_neg h2, if_neg h3, if_neg h4, if_neg h5,
      if_pos h6, List.cons_append, List.nil_append]
    rw [parseStrBody_backslash]
    simp [scanEsc]
    rw [hc]
  by_cases h7 : c.toNat = 12
  · have hc : Char.ofNat 12 = c := by rw [← h7]; exact Char.ofNat_toNat c
    simp only [escChar, if_neg h1, if_neg h2, if_neg h3, if_neg h4, if_neg h5,
      if_neg h6, if_pos h7, List.cons_append, List.nil_append]
    rw [parseStrBody_backslash]
    simp [scanEsc]
    rw [hc]
  by_cases h8 : c.toNat < 32
  · have hu := scanU_nonsurr c.toNat (by omega) (by omega) tail
    simp only [escChar, if_neg h1, if_neg h2, if_neg h3, if_neg h4, if_neg h5,
      if_neg h6, if_neg h7, if_pos h8, List.cons_append, List.append_assoc]
    rw [parseStrBody_backslash, scanEsc_u, hu, Char.ofNat_toNat]
  by_cases h9 : c.toNat < 127
  · simp only [escChar, if_neg h1, if_neg h2, if_neg h3, if_neg h4, if_neg h5,
      if_neg h6, if_neg h7, if_neg h8, if_pos h9, List.cons_append,
      List.nil_append]
    simp [parseStrBody, h1, h2, h8]
  by_cases h10 : c.toNat < 65536
  · have hu := scanU_nonsurr c.toNat (by omega)
      (by rcases char_valid_range c with h | h <;> omega) tail
    simp only [escChar, if_neg h1, if_neg h2, if_neg h3, if_neg h4, if_neg h5,
      if_neg h6, if_neg h7, if_neg h8, if_neg h9, if_pos h10, List.cons_append,
      List.append_assoc]
    rw [parseStrBody_backslash, scanEsc_u, hu, Char.ofNat_toNat]
  · have hu := scanU_pair c (by omega) tail
    simp only [escChar, if_neg h1, if_neg h2, if_neg h3, if_neg h4, if_neg h5,
      if_neg h6, if_neg h7, if_neg h8, if_neg h9, if_neg h10, List.cons_append,
      List.append_assoc, List.nil_append]
    rw [parseStrBody_backslash, scanEsc_u, hu]

theorem parseStrBody_escList : ∀ (l : List Char) (f : Nat) (tail : List Char),
    l.length < f →
    parseStrBody f (escList l ++ '"' :: tail) = some (l, tail) := by
  intro l
  induction l with
  | nil =>
    intro f tail hf
    match f, hf with
    | Nat.succ f, _ => simp [escList, parseStrBody]
  | cons c l ih =>
    intro f tail hf
    match f, hf with
    | Nat.succ f, hf =>
      have : escList (c :: l) ++ '"' :: tail
          = escChar c ++ (escList l ++ '"' :: tail) := by
        simp [escList]
      have hlen : l.length < f := by simp at hf; omega
      rw [this, parseStrBody_escChar, ih f tail hlen]
      rfl

/-! ## Scanner support lemmas -/

theorem skipWs_cons {c : Char} {l : List Char} (h : isJsonWs c = false) :
    skipWs (c :: l) = c :: l := by
  simp [skipWs, h]

theorem skipWs_space (l : List Char) : skipWs (' ' :: l) = skipWs l := by
  simp [skipWs, isJsonWs]

theorem expectChars_self : ∀ (es cs : List Char),
    expectChars es (es ++ cs) = some cs := by
  intro es
  induction es with
  | nil => intro cs; rfl
  | cons e es ih => intro cs; simp [expectChars, ih]

theorem numSafe_rbracket (rest : List Char) : numSafe (']' :: rest) = true := by
  simp [numSafe]

theorem numSafe_rbrace (rest : List Char) : numSafe ('}' :: rest) = true := by
  simp [numSafe]

theorem numSafe_comma (rest : List Char) : numSafe (',' :: rest) = true := by
  simp [numSafe]

/-- Every printed value starts with a non-whitespace character that is not a
closing bracket (so the scanner's separator handling cannot misfire). -/
theorem dumpVal_head (v : PyValue) (h : noFloat v = true) :
    ∃ c t, dumpVal v = c :: t ∧ isJsonWs c = false ∧ c ≠ ']' ∧ c ≠ '}' := by
  cases v with
  | none => exact ⟨'n', _, rfl, by decide, by decide, by decide⟩
  | bool b =>
    cases b with
    | false => exact ⟨'f', _, rfl, by decide, by decide, by decide⟩
    | true => exact ⟨'t', _, rfl, by decide, by decide, by decide⟩
  | int n =>
    by_cases hn : n < 0
    · refine ⟨'-', natToDigits (-n).toNat, ?_, by decide, by decide, by decide⟩
      show intDigits n = _
      simp [intDigits, hn]
    · obtain ⟨_, _, c, t, hcons, hdig, _⟩ := natToDigits_facts n.toNat
      obtain ⟨_, _, _, _, _, _, _, _, _, hws, hrb, hcb, _⟩ := isDigit_ne hdig
      refine ⟨c, t, ?_, hws, hrb, hcb⟩
      show intDigits n = _
      simp [intDigits, hn, hcons]
  | float r => simp [noFloat] at h
  | str s => exact ⟨'"', _, rfl, by decide, by decide, by decide⟩
  | list xs =>
    cases xs with
    | nil => exact ⟨'[', _, rfl, by decide, by decide, by decide⟩
    | cons x xs => exact ⟨'[', _, rfl, by decide, by decide, by decide⟩
  | dict kvs =>
    cases kvs with
    | nil => exact ⟨'{', _, rfl, by decide, by decide, by decide⟩
    | cons kv kvs => exact ⟨'{', _, rfl, by decide, by decide, by decide⟩

/-- Leading whitespace never has to be skipped in front of a printed value. -/
theorem skipWs_dumpVal (v : PyValue) (h : noFloat v = true) (rest : List Char) :
    skipWs (dumpVal v ++ rest) = dumpVal v ++ rest := by
  obtain ⟨c, t, hcons, hws, _, _⟩ := dumpVal_head v h
  rw [hcons]
  exact skipWs_cons hws

/-! ## Leaf scanner-vs-printer lemmas -/

set_option maxHeartbeats 1000000 in
theorem escChar_length (c : Char) : 1 ≤ (escChar c).length := by
  unfold escChar
  split_ifs <;> simp [hex4]

theorem escList_length (l : List Char) : l.length ≤ (escList l).length := by
  induction l with
  | nil => simp [escList]
  | cons c l ih =>
    have := escChar_length c
    simp only [escList, List.length_append, List.length_cons]
    omega

theorem parseValue_quote (f : Nat) (inner : List Char) :
    parseValue (f + 1) ('"' :: inner) =
      (parseStrBody (inner.length + 1) inner).map
        (fun p => (PyValue.str ⟨p.1⟩, p.2)) := by
  simp [parseValue]

theorem parseValue_str (f : Nat) (s : String) (rest : List Char) :
    parseValue (f + 1) (dumpVal (.str s) ++ rest) = some (.str s, rest) := by
  show parseValue (f + 1) ('"' :: ((escList s.data ++ ['"']) ++ rest)) = _
  rw [List.append_assoc]
  show parseValue (f + 1) ('"' :: (escList s.data ++ '"' :: rest)) = _
  rw [parseValue_quote]
  have hlen : s.data.length < (escList s.data ++ '"' :: rest).length + 1 := by
    have := escList_length s.data
    simp only [List.length_append, List.length_cons]
    omega
  rw [parseStrBody_escList s.data _ rest hlen]
  rfl

theorem parseValue_none (f : Nat) (rest : List Char) :
    parseValue (f + 1) (dumpVal .none ++ rest) = some (.none, rest) := by
  show parseValue (f + 1) ('n' :: (['u', 'l', 'l'] ++ rest)) = _
  simp [parseValue, expectChars]

theorem parseValue_true (f : Nat) (rest : List Char) :
    parseValue (f + 1) (dumpVal (.bool true) ++ rest) = some (.bool true, rest) := by
  show parseValue (f + 1) ('t' :: (['r', 'u', 'e'] ++ rest)) = _
  simp [parseValue, expectChars]

theorem parseValue_false (f : Nat) (rest : List Char) :
    parseValue (f + 1) (dumpVal (.bool false) ++ rest) = some (.bool false, rest) := by
  show parseValue (f + 1) ('f' :: (['a', 'l', 's', 'e'] ++ rest)) = _
  simp [parseValue, expectChars]

theorem parseValue_int (f : Nat) (n : Int) (rest : List Char)
    (h : numSafe rest = true) :
    parseValue (f + 1) (dumpVal (.int n) ++ rest) = some (.int n, rest) := by
  by_cases hn : n < 0
  · have hshape : dumpVal (.int n) ++ rest
        = '-' :: (natToDigits (-n).toNat ++ rest) := by
      show intDigits n ++ rest = _
      simp [intDigits, hn]
    rw [hshape]
    simp only [parseValue]
    rw [if_neg (by decide), if_neg (by decide), if_neg (by decide),
      if_neg (by decide), if_neg (by decide), if_neg (by decide),
      if_neg (by decide), if_neg (by decide)]
    rw [show '-' :: (natToDigits (-n).toNat ++ rest) = intDigits n ++ rest by
      simp [intDigits, hn]]
    exact parseNum_intDigits n rest h
  · obtain ⟨_, _, c, t, hcons, hdig, _⟩ := natToDigits_facts n.toNat
    obtain ⟨hm, hI, hq, hlb, hob, hn', ht', hf', hN', _, _, _, _⟩ :=
      isDigit_ne hdig
    have hshape : dumpVal (.int n) ++ rest = c :: (t ++ rest) := by
      show intDigits n ++ rest = _
      simp [intDigits, hn, hcons]
    rw [hshape]
    simp only [parseValue]
    rw [if_neg hq, if_neg hlb, if_neg hob, if_neg hn', if_neg ht', if_neg hf',
      if_neg hN', if_neg hI]
    rw [show c :: (t ++ rest) = intDigits n ++ rest by
      simp [intDigits, hn, hcons]]
    exact parseNum_intDigits n rest h

theorem parseValue_lbracket (f : Nat) (inner : List Char) :
    parseValue (f + 1) ('[' :: inner) =
      (if (skipWs inner).head? = some ']' then some (.list [], (skipWs inner).tail)
       else (parseElems f (skipWs inner)).map (fun p => (.list p.1, p.2))) := by
  simp [parseValue]

theorem parseValue_lbrace (f : Nat) (inner : List Char) :
    parseValue (f + 1) ('{' :: inner) =
      (if (skipWs inner).head? = some '}' then some (.dict [], (skipWs inner).tail)
       else (parseMembers f (skipWs inner)).map (fun p => (.dict p.1, p.2))) := by
  simp [parseValue]

theorem parseValue_list_nil (f : Nat) (rest : List Char) :
    parseValue (f + 1) (dumpVal (.list []) ++ rest) = some (.list [], rest) := by
  show parseValue (f + 1) ('[' :: (']' :: rest)) = _
  rw [parseValue_lbracket, skipWs_cons (by decide)]
  simp

theorem parseValue_dict_nil (f : Nat) (rest : List Char) :
    parseValue (f + 1) (dumpVal (.dict []) ++ rest) = some (.dict [], rest) := by
  show parseValue (f + 1) ('{' :: ('}' :: rest)) = _
  rw [parseValue_lbrace, skipWs_cons (by decide)]
  simp

theorem numSafe_dumpTail (xs : List PyValue) (rest : List Char) :
    numSafe (dumpTail xs ++ ']' :: rest) = true := by
  cases xs with
  | nil => simp [dumpTail, numSafe]
  | cons y ys => simp [dumpTail, numSafe]

theorem numSafe_dumpMTail (kvs : List (String × PyValue)) (rest : List Char) :
    numSafe (dumpMTail kvs ++ '}' :: rest) = true := by
  cases kvs with
  | nil => simp [dumpMTail, numSafe]
  | cons kv kvs => simp [dumpMTail, numSafe]

theorem dumpVal_length_pos (v : PyValue) (h : noFloat v = true) :
    1 ≤ (dumpVal v).length := by
  obtain ⟨c, t, hcons, _⟩ := dumpVal_head v h
  rw [hcons]
  simp

/-! ## The scanner inverts the printer -/

/-- Master statement, by induction on scanner fuel: a printed value followed
by a numeric-safe continuation scans back to exactly that value, provided
the fuel is at least twice the input length (each nesting level consumes at
least one input character, so this always holds for `json_loads`). -/
theorem parse_dump_master : ∀ fuel : Nat,
    (∀ v rest, noFloat v = true → numSafe rest = true →
      2 * (dumpVal v ++ rest).length ≤ fuel →
      parseValue fuel (dumpVal v ++ rest) = some (v, rest))
    ∧ (∀ x xs rest, noFloat x = true → noFloatList xs = true →
      2 * (dumpVal x ++ (dumpTail xs ++ ']' :: rest)).length + 1 ≤ fuel →
      parseElems fuel (dumpVal x ++ (dumpTail xs ++ ']' :: rest))
        = some (x :: xs, rest))
    ∧ (∀ k v kvs rest, noFloat v = true → noFloatDict kvs = true →
      2 * (escString k ++
        (':' :: (' ' :: (dumpVal v ++ (dumpMTail kvs ++ '}' :: rest))))).length
        + 1 ≤ fuel →
      parseMembers fuel (escString k ++
        (':' :: (' ' :: (dumpVal v ++ (dumpMTail kvs ++ '}' :: rest)))))
        = some ((k, v) :: kvs, rest)) := by
  intro fuel
  induction fuel with
  | zero =>
    refine ⟨?_, ?_, ?_⟩
    · intro v rest hnf _ hlen
      have := dumpVal_length_pos v hnf
      simp only [List.length_append] at hlen
      omega
    · intro x xs rest _ _ hlen
      omega
    · intro k v kvs rest _ _ hlen
      omega
  | succ f ih =>
    obtain ⟨ihV, ihE, ihM⟩ := ih
    refine ⟨?_, ?_, ?_⟩
    · -- parseValue
      intro v rest hnf hns hlen
      cases v with
      | none => exact parseValue_none f rest
      | bool b =>
        cases b with
        | true => exact parseValue_true f rest
        | false => exact parseValue_false f rest
      | int n => exact parseValue_int f n rest hns
      | float r => simp [noFloat] at hnf
      | str s => exact parseValue_str f s rest
      | list xs =>
        cases xs with
        | nil => exact parseValue_list_nil f rest
        | cons x xs =>
          have hnx : noFloat x = true ∧ noFloatList xs = true := by
            simpa [noFloat, noFloatList, Bool.and_eq_true] using hnf
          have hshape : dumpVal (.list (x :: xs)) ++ rest
              = '[' :: (dumpVal x ++ (dumpTail xs ++ ']' :: rest)) := by
            simp [dumpVal, List.append_assoc]
          rw [hshape] at hlen ⊢
          rw [parseValue_lbracket, skipWs_dumpVal x hnx.1]
          obtain ⟨c, t, hcons, _, hrb, _⟩ := dumpVal_head x hnx.1
          have hX : dumpVal x ++ (dumpTail xs ++ ']' :: rest)
              = c :: (t ++ (dumpTail xs ++ ']' :: rest)) := by
            rw [hcons]; rfl
          rw [hX, List.head?_cons, if_neg (by simpa using hrb), ← hX]
          rw [ihE x xs rest hnx.1 hnx.2 (by
            simp only [List.length_cons] at hlen
            omega)]
          rfl
      | dict kvs =>
        cases kvs with
        | nil => exact parseValue_dict_nil f rest
        | cons kv kvs =>
          obtain ⟨k, v⟩ := kv
          have hnx : noFloat v = true ∧ noFloatDict kvs = true := by
            simpa [noFloat, noFloatDict, Bool.and_eq_true] using hnf
          have hshape : dumpVal (.dict ((k, v) :: kvs)) ++ rest
              = '{' :: (escString k ++
                (':' :: (' ' :: (dumpVal v ++ (dumpMTail kvs ++ '}' :: rest))))) := by
            simp [dumpVal, List.append_assoc]
          rw [hshape] at hlen ⊢
          rw [parseValue_lbrace]
          have hq : skipWs (escString k ++
              (':' :: (' ' :: (dumpVal v ++ (dumpMTail kvs ++ '}' :: rest)))))
              = escString k ++
              (':' :: (' ' :: (dumpVal v ++ (dumpMTail kvs ++ '}' :: rest)))) := by
            show skipWs ('"' :: _) = _
            exact skipWs_cons (by decide)
          rw [hq]
          have hhead : (escString k ++
              (':' :: (' ' :: (dumpVal v ++ (dumpMTail kvs ++ '}' :: rest))))).head?
              = some '"' := by
            show (('"' :: (escList k.data ++ ['"'])) ++ _).head? = _
            rfl
          rw [hhead, if_neg (by decide)]
          rw [ihM k v kvs rest hnx.1 hnx.2 (by
            simp only [List.length_cons] at hlen
            omega)]
          rfl
    · -- parseElems
      intro x xs rest hnx hnxs hlen
      have hT := numSafe_dumpTail xs rest
      have hdx := dumpVal_length_pos x hnx
      simp only [parseElems]
      rw [ihV x (dumpTail xs ++ ']' :: rest) hnx hT (by omega)]
      simp only [Option.bind]
      cases xs with
      | nil =>
        simp [dumpTail, skipWs, isJsonWs]
      | cons y ys =>
        have hny : noFloat y = true ∧ noFloatList ys = true := by
          simpa [noFloatList, Bool.and_eq_true] using hnxs
        have hshape : dumpTail (y :: ys) ++ ']' :: rest
            = ',' :: (' ' :: (dumpVal y ++ (dumpTail ys ++ ']' :: rest))) := by
          simp [dumpTail, List.append_assoc]
        rw [hshape] at hlen ⊢
        rw [skipWs_cons (by decide)]
        rw [List.head?_cons, if_pos rfl, List.tail_cons]
        rw [skipWs_space, skipWs_dumpVal y hny.1]
        rw [ihE y ys rest hny.1 hny.2 (by
          simp only [List.length_append, List.length_cons] at hlen ⊢
          omega)]
        rfl
    · -- parseMembers
      intro k v kvs rest hnv hnkvs hlen
      have hdv := dumpVal_length_pos v hnv
      have hkey : escString k ++
          (':' :: (' ' :: (dumpVal v ++ (dumpMTail kvs ++ '}' :: rest))))
          = '"' :: (escList k.data ++
            ('"' :: (':' :: (' ' :: (dumpVal v ++
              (dumpMTail kvs ++ '}' :: rest)))))) := by
        simp [escString, List.append_assoc]
      rw [hkey] at hlen ⊢
      simp only [parseMembers, if_true]
      rw [parseStrBody_escList k.data _ _ (by
        have := escList_length k.data
        simp only [List.length_append, List.length_cons]
        omega)]
      simp only [Option.bind]
      rw [skipWs_cons (by decide)]
      rw [List.head?_cons, if_pos rfl, List.tail_cons]
      rw [skipWs_space, skipWs_dumpVal v hnv]
      rw [ihV v (dumpMTail kvs ++ '}' :: rest) hnv (numSafe_dumpMTail kvs rest)
        (by
          simp only [List.length_append, List.length_cons] at hlen ⊢
          omega)]
      simp only [Option.bind]
      cases kvs with
      | nil =>
        simp [dumpMTail, skipWs, isJsonWs]
      | cons kv2 kvs2 =>
        obtain ⟨k2, v2⟩ := kv2
        have hn2 : noFloat v2 = true ∧ noFloatDict kvs2 = true := by
          simpa [noFloatDict, Bool.and_eq_true] using hnkvs
        have hshape : dumpMTail ((k2, v2) :: kvs2) ++ '}' :: rest
            = ',' :: (' ' :: (escString k2 ++
              (':' :: (' ' :: (dumpVal v2 ++
                (dumpMTail kvs2 ++ '}' :: rest)))))) := by
          simp [dumpMTail, List.append_assoc]
        rw [hshape] at hlen ⊢
        rw [skipWs_cons (by decide)]
        rw [List.head?_cons, if_pos rfl, List.tail_cons]
        rw [skipWs_space]
        have hq2 : skipWs (escString k2 ++
            (':' :: (' ' :: (dumpVal v2 ++ (dumpMTail kvs2 ++ '}' :: rest)))))
            = escString k2 ++
            (':' :: (' ' :: (dumpVal v2 ++ (dumpMTail kvs2 ++ '}' :: rest)))) := by
          show skipWs ('"' :: _) = _
          exact skipWs_cons (by decide)
        rw [hq2]
        rw [ihM k2 v2 kvs2 rest hn2.1 hn2.2 (by
          simp only [List.length_append, List.length_cons] at hlen ⊢
          omega)]
        rfl
theorem data_mk (l : List Char) : (String.mk l).data = l := rfl

/-- `json.loads` inverts `json.dumps` on every float-free value. -/
theorem json_loads_dumps (v : PyValue) (h : noFloat v = true) :
    json_loads (json_dumps v) = some v := by
  have hnil : dumpVal v ++ [] = dumpVal v := List.append_nil _
  have hPV := (parse_dump_master (2 * (dumpVal v).length + 2)).1 v [] h rfl
    (by rw [hnil]; omega)
  rw [hnil] at hPV
  have h1 : skipWs (dumpVal v) = dumpVal v := by
    have h2 := skipWs_dumpVal v h []
    rwa [hnil] at h2
  simp only [json_loads, json_dumps, data_mk]
  rw [h1, hPV]
  simp [skipWs]

/-! ## The claims -/

/-- C1: decoding the textual encoding produced by the value adapter yields
the original value: for every JSON-representable (float-free) value `v`,
`json.loads(JsonAdapter.dumps(v)) == v`, and reading that text back through
`JsonField.to_python` also restores `v`.  The adapter passes no options to
`json.dumps`, so the default option set is the one exercised; option sets
that lossy-transform types (dates, custom encoders) are outside `PyValue`
and excepted by the claim itself. -/
theorem C1_encode_decode_roundtrip (v : PyValue) (h : noFloat v = true) :
    json_loads (JsonAdapter.dumps v) = some v ∧
    JsonField.to_python (.str (JsonAdapter.dumps v)) = v := by
  have h1 := json_loads_dumps v h
  refine ⟨h1, ?_⟩
  simp [JsonField.to_python, JsonAdapter.dumps, h1]

theorem C1_encode_decode_roundtrip_witness :
    noFloat (PyValue.dict [("a", .int 1),
      ("b", .list [.str "x", .bool true, .none, .int (-7)])]) = true ∧
    json_loads (JsonAdapter.dumps (PyValue.dict [("a", .int 1),
      ("b", .list [.str "x", .bool true, .none, .int (-7)])]))
      = some (PyValue.dict [("a", .int 1),
      ("b", .list [.str "x", .bool true, .none, .int (-7)])]) :=
  ⟨rfl, (C1_encode_decode_roundtrip (PyValue.dict [("a", .int 1),
      ("b", .list [.str "x", .bool true, .none, .int (-7)])]) rfl).1⟩

/-- C2: for the `jhas` lookup, `get_prep_lookup` passes a string through
unchanged, converts an integer to its decimal string form `str(n)`
(`intDigits`), and raises `TypeError` for floats, lists, dicts and `None`
(booleans are settled separately in C10, since Python's `bool` is a subclass
of `int`). -/
theorem C2_jhas_prep_lookup :
    (∀ s, JsonBField.get_prep_lookup "jhas" (.str s) = .ok (.str s)) ∧
    (∀ n : Int, JsonBField.get_prep_lookup "jhas" (.int n)
      = .ok (.str ⟨intDigits n⟩)) ∧
    (∀ r, JsonBField.get_prep_lookup "jhas" (.float r)
      = .error "jhas lookup requires str or int") ∧
    (∀ xs, JsonBField.get_prep_lookup "jhas" (.list xs)
      = .error "jhas lookup requires str or int") ∧
    (∀ kvs, JsonBField.get_prep_lookup "jhas" (.dict kvs)
      = .error "jhas lookup requires str or int") ∧
    JsonBField.get_prep_lookup "jhas" .none
      = .error "jhas lookup requires str or int" ∧
    JsonBField.get_prep_lookup "jhas" (.str "foo") = .ok (.str "foo") ∧
    JsonBField.get_prep_lookup "jhas" (.int 3) = .ok (.str "3") ∧
    JsonBField.get_prep_lookup "jhas" (.float "3.5")
      = .error "jhas lookup requires str or int" := by
  refine ⟨fun s => rfl, fun n => rfl, fun r => rfl, fun xs => rfl,
    fun kvs => rfl, rfl, rfl, rfl, rfl⟩

/-- C3: for the `jhas_any` and `jhas_all` lookups, `get_prep_lookup` wraps a
single string into a one-element sequence and coerces every element of an
iterable to its string form (`"%s" % v`, modelled by `pyToStr`); the result
is always a sequence of strings. -/
theorem C3_jhas_any_all_prep_lookup :
    (∀ s, JsonBField.get_prep_lookup "jhas_any" (.str s)
      = .ok (.list [.str s])) ∧
    (∀ s, JsonBField.get_prep_lookup "jhas_all" (.str s)
      = .ok (.list [.str s])) ∧
    (∀ xs, JsonBField.get_prep_lookup "jhas_any" (.list xs)
      = .ok (.list (xs.map (fun v => PyValue.str (pyToStr v))))) ∧
    (∀ xs, JsonBField.get_prep_lookup "jhas_all" (.list xs)
      = .ok (.list (xs.map (fun v => PyValue.str (pyToStr v))))) ∧
    JsonBField.get_prep_lookup "jhas_any" (.str "x")
      = .ok (.list [.str "x"]) ∧
    JsonBField.get_prep_lookup "jhas_any" (.list [.str "a", .int 1])
      = .ok (.list [.str "a", .str "1"]) := by
  refine ⟨fun s => rfl, fun s => rfl, fun xs => rfl, fun xs => rfl, rfl, rfl⟩

/-- C4: for the `jcontains` lookup, `get_prep_lookup` passes a string value
through unchanged and re-encodes any non-string value as JSON text with the
pluggable encoder (`json_dumps`). -/
theorem C4_jcontains_prep_lookup :
    (∀ s, JsonBField.get_prep_lookup "jcontains" (.str s) = .ok (.str s)) ∧
    (∀ v, pyIsStr v = false →
      JsonBField.get_prep_lookup "jcontains" v = .ok (.str (json_dumps v))) := by
  refine ⟨fun s => rfl, ?_⟩
  intro v hv
  cases v with
  | str s => simp [pyIsStr] at hv
  | none => rfl
  | bool b => rfl
  | int n => rfl
  | float r => rfl
  | list xs => rfl
  | dict kvs => rfl

theorem C4_jcontains_prep_lookup_witness :
    pyIsStr (PyValue.dict [("a", .int 1)]) = false ∧
    JsonBField.get_prep_lookup "jcontains" (.dict [("a", .int 1)])
      = .ok (.str "\x7b\"a\": 1\x7d") ∧
    JsonBField.get_prep_lookup "jcontains" (.str "\x7b\"a\": 1\x7d")
      = .ok (.str "\x7b\"a\": 1\x7d") :=
  ⟨rfl,
   by rw [C4_jcontains_prep_lookup.2 (PyValue.dict [("a", .int 1)]) rfl]; rfl,
   C4_jcontains_prep_lookup.1 "\x7b\"a\": 1\x7d"⟩

/-- C5: `JsonField.db_type` raises a `RuntimeError` for every server version
below 9.2 (encoded 90200 by `get_version`) and returns the column type
`"json"` for every version at or above it. -/
theorem C5_json_db_type (version : Nat) :
    (version < 90200 → JsonField.db_type version
      = .error "django_pgjson does not supports postgresql version < 9.2") ∧
    (90200 ≤ version → JsonField.db_type version = .ok "json") := by
  constructor
  · intro h
    simp [JsonField.db_type, h]
  · intro h
    simp [JsonField.db_type, Nat.not_lt.mpr h]

theorem C5_json_db_type_witness :
    JsonField.db_type 90199
      = .error "django_pgjson does not supports postgresql version < 9.2" ∧
    JsonField.db_type 90200 = .ok "json" :=
  ⟨(C5_json_db_type 90199).1 (by decide), (C5_json_db_type 90200).2 (by decide)⟩

/-- C6: `JsonBField.db_type` raises a `RuntimeError` for every server version
below 9.4 (encoded 90400) and returns the column type `"jsonb"` for every
version at or above it. -/
theorem C6_jsonb_db_type (version : Nat) :
    (version < 90400 → JsonBField.db_type version
      = .error "django_pgjson: PostgreSQL >= 9.4 is required for jsonb support.") ∧
    (90400 ≤ version → JsonBField.db_type version = .ok "jsonb") := by
  constructor
  · intro h
    simp [JsonBField.db_type, h]
  · intro h
    simp [JsonBField.db_type, Nat.not_lt.mpr h]

theorem C6_jsonb_db_type_witness :
    JsonBField.db_type 90399
      = .error "django_pgjson: PostgreSQL >= 9.4 is required for jsonb support." ∧
    JsonBField.db_type 90400 = .ok "jsonb" :=
  ⟨(C6_jsonb_db_type 90399).1 (by decide), (C6_jsonb_db_type 90400).2 (by decide)⟩

/-- C7: `to_python` parses string input as JSON: text the codec accepts
decodes to the corresponding structure, text it rejects is returned
unchanged as the literal string (the permissive fallback: the model's total
function raises nothing), and non-string input is returned unchanged. -/
theorem C7_to_python_permissive :
    (∀ s j, json_loads s = some j → JsonField.to_python (.str s) = j) ∧
    (∀ s, json_loads s = Option.none → JsonField.to_python (.str s) = .str s) ∧
    (∀ v, pyIsStr v = false → JsonField.to_python v = v) := by
  refine ⟨?_, ?_, ?_⟩
  · intro s j h
    simp [JsonField.to_python, h]
  · intro s h
    simp [JsonField.to_python, h]
  · intro v hv
    cases v with
    | str s => simp [pyIsStr] at hv
    | none => rfl
    | bool b => rfl
    | int n => rfl
    | float r => rfl
    | list xs => rfl
    | dict kvs => rfl

theorem C7_to_python_permissive_witness :
    JsonField.to_python (.str "\x7b\"a\": 1\x7d") = .dict [("a", .int 1)] ∧
    JsonField.to_python (.str "\x7ba:1\x7d") = .str "\x7ba:1\x7d" ∧
    JsonField.to_python (.int 5) = .int 5 :=
  ⟨C7_to_python_permissive.1 "\x7b\"a\": 1\x7d" (.dict [("a", .int 1)]) rfl,
   C7_to_python_permissive.2.1 "\x7ba:1\x7d" rfl,
   C7_to_python_permissive.2.2 (.int 5) rfl⟩

/-- C8: `get_transform` (past the base field's registry) yields a
key-transform scoped to `<key>` exactly when the name matches the anchored
prefix pattern `at_\w+`; the key is everything after the first underscore,
and every other name yields no transform. -/
theorem C8_get_transform_at_key :
    (∀ (key : String) (c : Char) (t : List Char), key.data = c :: t →
      isWordChar c = true →
      JsonField.get_transform ("at_" ++ key) = some key) ∧
    (∀ (name : String) (c : Char) (t : List Char),
      name.data = 'a' :: 't' :: '_' :: c :: t → isWordChar c = false →
      JsonField.get_transform name = Option.none) ∧
    (∀ name : String,
      (∀ (c : Char) (t : List Char), name.data ≠ 'a' :: 't' :: '_' :: c :: t) →
      JsonField.get_transform name = Option.none) := by
  refine ⟨?_, ?_, ?_⟩
  · intro key c t hdata hw
    have hcat : ("at_" ++ key).data = 'a' :: 't' :: '_' :: c :: t := by
      show 'a' :: 't' :: '_' :: key.data = _
      rw [hdata]
    simp only [JsonField.get_transform, hcat]
    simp [hw, ← hdata]
  · intro name c t hdata hw
    simp only [JsonField.get_transform, hdata]
    simp [hw]
  · intro name hne
    rcases hd : name.data with _ | ⟨c1, _ | ⟨c2, _ | ⟨c3, _ | ⟨c4, t⟩⟩⟩⟩ <;>
      simp only [JsonField.get_transform, hd]
    by_cases hc : c1 = 'a' ∧ c2 = 't' ∧ c3 = '_' ∧ isWordChar c4
    · obtain ⟨h1, h2, h3, _⟩ := hc
      subst h1; subst h2; subst h3
      exact absurd hd (hne c4 t)
    · simp [hc]

theorem C8_get_transform_at_key_witness :
    JsonField.get_transform "at_foo" = some "foo" ∧
    JsonField.get_transform "exact" = Option.none ∧
    JsonField.get_transform "at_" = Option.none :=
  ⟨C8_get_transform_at_key.1 "foo" 'f' ['o', 'o'] rfl rfl,
   C8_get_transform_at_key.2.2 "exact" (by intro c t h; simp at h),
   C8_get_transform_at_key.2.2 "at_" (by intro c t h; simp at h)⟩

/-- C9: the form field's `prepare_value` returns string values verbatim and
renders every non-string value as its JSON text produced with the pluggable
encoder (`json.dumps(value, cls=get_encoder_class())`). -/
theorem C9_prepare_value :
    (∀ s, JsonFormField.prepare_value (.str s) = s) ∧
    (∀ v, pyIsStr v = false →
      JsonFormField.prepare_value v = json_dumps v) := by
  refine ⟨fun s => rfl, ?_⟩
  intro v hv
  cases v with
  | str s => simp [pyIsStr] at hv
  | none => rfl
  | bool b => rfl
  | int n => rfl
  | float r => rfl
  | list xs => rfl
  | dict kvs => rfl

theorem C9_prepare_value_witness :
    JsonFormField.prepare_value (.str "hello") = "hello" ∧
    pyIsStr (PyValue.dict [("a", .int 1)]) = false ∧
    JsonFormField.prepare_value (.dict [("a", .int 1)]) = "\x7b\"a\": 1\x7d" :=
  ⟨C9_prepare_value.1 "hello", rfl,
   by rw [C9_prepare_value.2 (PyValue.dict [("a", .int 1)]) rfl]; rfl⟩

/-- C10: a boolean passed to the `jhas` lookup does not raise: Python's
`bool` is a subclass of `int`, so `isinstance(value, six.integer_types)`
accepts it and `str(value)` yields `"True"` or `"False"`. -/
theorem C10_jhas_bool (b : Bool) :
    JsonBField.get_prep_lookup "jhas" (.bool b)
      = .ok (.str (if b then "True" else "False")) := by
  cases b with
  | true => rfl
  | false => rfl

end PgJson
